import Mathlib

/-!
Verification of the tintwind color engine (src/App.tsx).

The engine is embedded shallowly: the TypeScript functions
generateColorScale, getClosestColorName, toCssVarName and the export
helper generateVariables are translated to Lean definitions, together
with the fragments of the chroma-js library they call (hex parsing,
RGB/Lab/LCH/OKLab conversion, LCH-space interpolation, Lab distance).

IEEE-754 double arithmetic is modelled by exact rationals.  The
irrational primitives of the pipeline (square, cube, fifth and twelfth
roots, the trigonometric functions used for hue angles) are modelled by
deterministic, total rational Newton/Taylor approximations truncated to
twelve decimal digits per step.  No theorem below depends on the
accuracy of these approximations, only on their determinism and
totality; every settled claim is structural (lengths, exact strings,
formatting shape, fold semantics, error propagation).
-/

namespace Tintwind

/-- Truncate a rational to twelve decimal digits; stands in for the bounded
precision of double arithmetic and keeps denominators small. -/
def ratTrunc (x : ℚ) : ℚ := (⌊x * 1000000000000⌋ : ℚ) / 1000000000000

/-- Iterate a function a fixed number of times. -/
def iterA (f : ℚ → ℚ) : ℕ → ℚ → ℚ
  | 0, x => x
  | n + 1, x => iterA f n (f x)

/-- Rational Newton approximation of Math.sqrt (nonpositive inputs map to 0;
the engine only applies it to sums of squares). -/
def sqrtA (a : ℚ) : ℚ :=
  if a ≤ 0 then 0
  else iterA (fun y => ratTrunc ((y + a / y) / 2)) 32 (if a < 1 then 1 else a)

/-- Rational Newton approximation of the cube root of a nonnegative rational. -/
def cbrtPos (a : ℚ) : ℚ :=
  iterA (fun y => ratTrunc ((2 * y + a / (y * y)) / 3)) 32 (if a < 1 then 1 else a)

/-- Rational approximation of Math.cbrt, defined on all of ℚ with odd symmetry,
as the ES2015 cbrt used by chroma-js is. -/
def cbrtA (a : ℚ) : ℚ :=
  if a = 0 then 0 else if a < 0 then -cbrtPos (-a) else cbrtPos a

/-- Rational Newton approximation of the fifth root of a nonnegative rational. -/
def fifthRootA (a : ℚ) : ℚ :=
  if a ≤ 0 then 0
  else iterA (fun y => ratTrunc ((4 * y + a / (y * y * y * y)) / 5)) 32
    (if a < 1 then 1 else a)

/-- Rational Newton approximation of the twelfth root of a nonnegative rational. -/
def twelfthRootA (a : ℚ) : ℚ :=
  if a ≤ 0 then 0
  else iterA (fun y => ratTrunc ((11 * y + a / (y ^ 11)) / 12)) 32
    (if a < 1 then 1 else a)

/-- Approximation of Math.pow (x, 2.4) for nonnegative x: x ^ (12/5) as the
fifth root of x ^ 12.  Used by the sRGB linearization in chroma-js. -/
def pow24A (x : ℚ) : ℚ := fifthRootA (x ^ 12)

/-- Approximation of Math.pow (x, 1/2.4) for nonnegative x: x ^ (5/12) as the
twelfth root of x ^ 5.  Used by the sRGB companding in chroma-js. -/
def powInv24A (x : ℚ) : ℚ := twelfthRootA (x ^ 5)

/-- Rational stand-in for the double closest to pi. -/
def piA : ℚ := 3.141592653589793

/-- Remainder of x modulo m, following the sign convention of floor. -/
def qmod (x m : ℚ) : ℚ := x - m * ⌊x / m⌋

/-- Iterate a Taylor-series accumulator step (index, current term, sum). -/
def taylorGo (step : ℕ × ℚ × ℚ → ℕ × ℚ × ℚ) : ℕ → ℕ × ℚ × ℚ → ℕ × ℚ × ℚ
  | 0, p => p
  | n + 1, p => taylorGo step n (step p)

/-- Taylor approximation of the sine of a rational given in radians,
after range reduction to the interval from -pi to pi. -/
def sinRadA (x : ℚ) : ℚ :=
  let r := ratTrunc (qmod (x + piA) (2 * piA) - piA)
  let r2 := ratTrunc (r * r)
  let step : ℕ × ℚ × ℚ → ℕ × ℚ × ℚ := fun p =>
    let k := p.1
    let term := ratTrunc (-p.2.1 * r2 / ((2 * k + 2) * (2 * k + 3)))
    (k + 1, term, ratTrunc (p.2.2 + term))
  (taylorGo step 11 (0, r, r)).2.2

/-- Taylor approximation of the cosine of a rational given in radians. -/
def cosRadA (x : ℚ) : ℚ := sinRadA (x + piA / 2)

/-- Sine of an angle in degrees, as chroma-js computes cos and sin of hues. -/
def sinDegA (d : ℚ) : ℚ := sinRadA (ratTrunc (d * piA / 180))

/-- Cosine of an angle in degrees. -/
def cosDegA (d : ℚ) : ℚ := cosRadA (ratTrunc (d * piA / 180))

/-- Taylor approximation of the arctangent on the interval from -1 to 1. -/
def atanSmallA (t : ℚ) : ℚ :=
  let t2 := ratTrunc (t * t)
  let step : ℕ × ℚ × ℚ → ℕ × ℚ × ℚ := fun p =>
    let k := p.1
    let term := ratTrunc (-p.2.1 * t2)
    (k + 1, term, ratTrunc (p.2.2 + term / (2 * k + 3)))
  (taylorGo step 14 (0, t, t)).2.2

/-- Rational approximation of Math.atan. -/
def atanA (t : ℚ) : ℚ :=
  if t ≤ 1 ∧ -1 ≤ t then atanSmallA t
  else if 1 < t then piA / 2 - atanSmallA (1 / t)
  else -(piA / 2) - atanSmallA (1 / t)

/-- Rational approximation of Math.atan2, by quadrant cases. -/
def atan2A (y x : ℚ) : ℚ :=
  if 0 < x then atanA (y / x)
  else if x < 0 then (if 0 ≤ y then atanA (y / x) + piA else atanA (y / x) - piA)
  else if 0 < y then piA / 2
  else if y < 0 then -(piA / 2)
  else 0

/-- Math.round of JavaScript: floor after adding one half. -/
def jsRound (x : ℚ) : ℤ := ⌊x + 1 / 2⌋

/-! ## Device RGB colors, hex parsing and hex output (chroma-js io/hex) -/

/-- A device-RGB color as chroma-js stores it: three double channels on the
0..255 scale (fractional values occur between conversion and rounding). -/
structure RGB where
  r : ℚ
  g : ℚ
  b : ℚ
deriving DecidableEq, Repr

/-- Value of a single hexadecimal digit, both cases accepted. -/
def hexDigitVal (c : Char) : Option ℕ :=
  if '0' ≤ c ∧ c ≤ '9' then some (c.toNat - '0'.toNat)
  else if 'a' ≤ c ∧ c ≤ 'f' then some (c.toNat - 'a'.toNat + 10)
  else if 'A' ≤ c ∧ c ≤ 'F' then some (c.toNat - 'A'.toNat + 10)
  else none

/-- Hex-string fragment of the chroma-js color parser: a 3- or 6-digit
hexadecimal color with an optional leading hash, case-insensitive.  The
chroma constructor additionally accepts named colors and functional
notations; those surfaces are not exercised by the engine under
verification and are outside this embedding, so inputs in them are
rejected here. -/
def parseColor (s : String) : Option RGB :=
  let cs := s.toList
  let ds := match cs with
    | '#' :: rest => rest
    | _ => cs
  match ds with
  | [r1, r2, g1, g2, b1, b2] =>
    match hexDigitVal r1, hexDigitVal r2, hexDigitVal g1,
          hexDigitVal g2, hexDigitVal b1, hexDigitVal b2 with
    | some a, some b, some c, some d, some e, some f =>
      some ⟨(16 * a + b : ℕ), (16 * c + d : ℕ), (16 * e + f : ℕ)⟩
    | _, _, _, _, _, _ => none
  | [r1, g1, b1] =>
    match hexDigitVal r1, hexDigitVal g1, hexDigitVal b1 with
    | some a, some c, some e => some ⟨(17 * a : ℕ), (17 * c : ℕ), (17 * e : ℕ)⟩
    | _, _, _ => none
  | _ => none

/-- Lowercase hexadecimal digit character, as JavaScript toString(16) emits. -/
def hexChar (n : ℕ) : Char := Nat.digitChar n

/-- Two lowercase hex digits of a byte. -/
def byteHex (n : ℕ) : List Char := [hexChar (n / 16), hexChar (n % 16)]

/-- Chroma-js rgb2hex: round each channel and print six lowercase hex digits
after a hash. -/
def rgb2hex (c : RGB) : String :=
  ⟨'#' :: byteHex (jsRound c.r).toNat ++ byteHex (jsRound c.g).toNat
      ++ byteHex (jsRound c.b).toNat⟩

/-- Clamp a channel to the 0..255 range (chroma-js clip_rgb, applied by the
Color constructor to every conversion result). -/
def clipChannel (v : ℚ) : ℚ := if v < 0 then 0 else if 255 < v then 255 else v

/-- Clamp all three channels. -/
def clipRGB (c : RGB) : RGB := ⟨clipChannel c.r, clipChannel c.g, clipChannel c.b⟩

/-! ## CIE Lab and LCH (chroma-js io/lab, io/lch, D65 constants) -/

/-- Chroma-js sRGB linearization of one channel (rgb_xyz). -/
def rgbXyz (v : ℚ) : ℚ :=
  let w := v / 255
  if w ≤ 0.04045 then w / 12.92 else pow24A ((w + 0.055) / 1.055)

/-- Chroma-js Lab forward companding (xyz_lab) with its literal constants. -/
def xyzLab (t : ℚ) : ℚ :=
  if 0.008856452 < t then cbrtA t else t / 0.12841855 + 0.137931034

/-- Chroma-js rgb2lab via the sRGB-to-XYZ matrix and D65 white point. -/
def rgb2lab (c : RGB) : ℚ × ℚ × ℚ :=
  let r := rgbXyz c.r
  let g := rgbXyz c.g
  let b := rgbXyz c.b
  let x := xyzLab ((0.4124564 * r + 0.3575761 * g + 0.1804375 * b) / 0.950470)
  let y := xyzLab ((0.2126729 * r + 0.7151522 * g + 0.0721750 * b) / 1)
  let z := xyzLab ((0.0193339 * r + 0.1191920 * g + 0.9503041 * b) / 1.088830)
  (116 * y - 16, 500 * (x - y), 200 * (y - z))

/-- Chroma-js lab2lch, shared by the Lab and OKLab polar forms: the hue is
the NaN sentinel (modelled as none) exactly when the chroma rounds to zero
at four decimals. -/
def lab2lch (l a b : ℚ) : ℚ × ℚ × Option ℚ :=
  let c := sqrtA (a * a + b * b)
  let h := qmod (atan2A b a * (180 / piA) + 360) 360
  (l, c, if jsRound (c * 10000) = 0 then none else some h)

/-- Chroma-js lch2lab: a NaN hue is treated as zero. -/
def lch2lab (l c : ℚ) (h : Option ℚ) : ℚ × ℚ × ℚ :=
  let hv := h.getD 0
  (l, cosDegA hv * c, sinDegA hv * c)

/-- Chroma-js Lab inverse companding (lab_xyz). -/
def labXyz (t : ℚ) : ℚ :=
  if 0.206896552 < t then t * t * t else 0.12841855 * (t - 0.137931034)

/-- Chroma-js sRGB companding of one linear channel (xyz_rgb). -/
def xyzRgb (v : ℚ) : ℚ :=
  255 * (if v ≤ 0.00304 then 12.92 * v else 1.055 * powInv24A v - 0.055)

/-- Chroma-js lab2rgb (without the final clamp, which clip_rgb applies). -/
def lab2rgb (l a b : ℚ) : RGB :=
  let y := (l + 16) / 116
  let x := y + a / 500
  let z := y - b / 200
  let x2 := 0.950470 * labXyz x
  let y2 := 1 * labXyz y
  let z2 := 1.088830 * labXyz z
  ⟨xyzRgb (3.2404542 * x2 - 1.5371385 * y2 - 0.4985314 * z2),
   xyzRgb (-0.9692660 * x2 + 1.8760108 * y2 + 0.0415560 * z2),
   xyzRgb (0.0556434 * x2 - 0.2040259 * y2 + 1.0572252 * z2)⟩

/-- Chroma-js distance in Lab space: Euclidean distance of the Lab
coordinates, the metric of getClosestColorName. -/
def chromaDistLab (c1 c2 : RGB) : ℚ :=
  let p := rgb2lab c1
  let q := rgb2lab c2
  sqrtA ((p.1 - q.1) ^ 2 + (p.2.1 - q.2.1) ^ 2 + (p.2.2 - q.2.2) ^ 2)

/-! ## OKLab and OKLCH (chroma-js io/oklab, io/oklch) -/

/-- Chroma-js rgb2lrgb: signed sRGB linearization on the 0..1 scale. -/
def rgb2lrgb (c : ℚ) : ℚ :=
  if |c| < 0.04045 then c / 12.92
  else (if c < 0 then -1 else 1) * pow24A ((|c| + 0.055) / 1.055)

/-- Chroma-js rgb2oklab: linearize, LMS matrix, cube roots, OKLab matrix. -/
def rgb2oklab (c : RGB) : ℚ × ℚ × ℚ :=
  let lr := rgb2lrgb (c.r / 255)
  let lg := rgb2lrgb (c.g / 255)
  let lb := rgb2lrgb (c.b / 255)
  let l := cbrtA (0.4122214708 * lr + 0.5363325363 * lg + 0.0514459929 * lb)
  let m := cbrtA (0.2119034982 * lr + 0.6806995451 * lg + 0.1073969566 * lb)
  let s := cbrtA (0.0883024619 * lr + 0.2817188376 * lg + 0.6299787005 * lb)
  (0.2104542553 * l + 0.793617785 * m - 0.0040720468 * s,
   1.9779984951 * l - 2.428592205 * m + 0.4505937099 * s,
   0.0259040371 * l + 0.7827717662 * m - 0.808675766 * s)

/-- The oklch() reader of chroma-js: OKLab followed by the shared polar
conversion; the result is lightness, chroma and an optional hue. -/
def oklchOf (c : RGB) : ℚ × ℚ × Option ℚ :=
  let p := rgb2oklab c
  lab2lch p.1 p.2.1 p.2.2

/-! ## LCH interpolation (chroma-js interpolator for mode lch) -/

/-- Chroma-js hcl() reader: Lab then polar, returned as hue, chroma,
lightness. -/
def hclOf (c : RGB) : Option ℚ × ℚ × ℚ :=
  let p := rgb2lab c
  let q := lab2lch p.1 p.2.1 p.2.2
  (q.2.2, q.2.1, q.1)

/-- Chroma-js interpolate_hsx for mode lch: shortest-path hue interpolation
when both hues are defined, adoption of the single defined hue otherwise
(with the saturation special case chroma-js inherits from its HSL
interpolator, comparing the lightness endpoint to zero and one), and linear
interpolation of chroma and lightness.  The result passes through lch2lab,
lab2rgb and the constructor clamp. -/
def mixLch (col1 col2 : RGB) (f : ℚ) : RGB :=
  let p0 := hclOf col1
  let p1 := hclOf col2
  let hue0 := p0.1
  let sat0 := p0.2.1
  let lbv0 := p0.2.2
  let hue1 := p1.1
  let sat1 := p1.2.1
  let lbv1 := p1.2.2
  let huePre : Option ℚ × Option ℚ :=
    match hue0, hue1 with
    | some h0, some h1 =>
      let dh :=
        if h1 > h0 ∧ h1 - h0 > 180 then h1 - (h0 + 360)
        else if h1 < h0 ∧ h0 - h1 > 180 then h1 + 360 - h0
        else h1 - h0
      (some (h0 + f * dh), none)
    | some h0, none =>
      (some h0, if lbv1 = 1 ∨ lbv1 = 0 then some sat0 else none)
    | none, some h1 =>
      (some h1, if lbv0 = 1 ∨ lbv0 = 0 then some sat1 else none)
    | none, none => (none, none)
  let sat := (huePre.2).getD (sat0 + f * (sat1 - sat0))
  let lbv := lbv0 + f * (lbv1 - lbv0)
  let lab := lch2lab lbv sat huePre.1
  clipRGB (lab2rgb lab.1 lab.2.1 lab.2.2)

/-- Chroma.mix of two color strings in mode lch followed by hex output, the
expression the scale generator evaluates for every non-base step; a parse
failure of either argument is the exception path of the original. -/
def chromaMixLchHex (s1 s2 : String) (f : ℚ) : Option String := do
  let c1 ← parseColor s1
  let c2 ← parseColor s2
  some (rgb2hex (mixLch c1 c2 f))

/-! ## Number formatting (Number.prototype.toFixed with three decimals) -/

/-- Decimal digits of a natural number, most significant first. -/
def natDigits (n : ℕ) : List Char :=
  if h : n < 10 then [Nat.digitChar n]
  else
    have : n / 10 < n := Nat.div_lt_self (by omega) (by omega)
    natDigits (n / 10) ++ [Nat.digitChar (n % 10)]

/-- Decimal string of a natural number. -/
def natStr (n : ℕ) : String := ⟨natDigits n⟩

/-- Exactly three decimal digit characters for a remainder below 1000. -/
def pad3 (k : ℕ) : List Char :=
  [Nat.digitChar (k / 100 % 10), Nat.digitChar (k / 10 % 10), Nat.digitChar (k % 10)]

/-- The toFixed(3) formatter of JavaScript: round at the third decimal and
print an integer part, a point and exactly three fractional digits.  The
engine only formats nonnegative lightness, chroma and hue values. -/
def toFixed3 (v : ℚ) : String :=
  let m := (jsRound (|v| * 1000)).toNat
  (if v < 0 then "-" else "") ++ natStr (m / 1000) ++ "." ++ ⟨pad3 (m % 1000)⟩

/-- The per-component formatter of generateColorScale: a NaN component
(modelled as none) prints as 0.000, anything else through toFixed(3). -/
def fmtNum (v : Option ℚ) : String :=
  match v with
  | none => "0.000"
  | some x => toFixed3 x

/-- The join of JavaScript arrays with a single-space separator. -/
def joinSpace : List String → String
  | [] => ""
  | [s] => s
  | s :: rest => s ++ " " ++ joinSpace rest

/-- The join of JavaScript arrays with a newline separator. -/
def joinNl : List String → String
  | [] => ""
  | [s] => s
  | s :: rest => s ++ "\n" ++ joinNl rest

/-! ## The application engine (src/App.tsx) -/

/-- One step of a scale as the application stores it: the hex string and the
formatted oklch string. -/
structure ColorData where
  hex : String
  oklch : String
deriving DecidableEq, Repr

/-- A color scale: a list of steps (a transparent type alias, as in the
source). -/
abbrev ColorScale := List ColorData

/-- The Tailwind step labels. -/
def SCALE_STEPS : List ℕ := [50, 100, 200, 300, 400, 500, 600, 700, 800, 900]

/-- The fixed interpolation weights of generateColorScale. -/
def mixRatios : List ℚ := [0.95, 0.8, 0.6, 0.4, 0.2, 0, 0.2, 0.4, 0.6, 0.8]

/-- The fixed mix anchors of generateColorScale: white for the light steps,
the base color itself at the base step, black for the dark steps. -/
def mixColors (color : String) : List String :=
  ["#ffffff", "#ffffff", "#ffffff", "#ffffff", "#ffffff", color,
   "#000000", "#000000", "#000000", "#000000"]

/-- A map that stops at the first failing element: the embedding of a
JavaScript map whose body can throw, with the exception propagating. -/
def mapOrThrow (f : α → Option β) : List α → Option (List β)
  | [] => some []
  | a :: as =>
    match f a with
    | none => none
    | some b =>
      match mapOrThrow f as with
      | none => none
      | some bs => some (b :: bs)

/-- The hex of one scale entry: index 5 is the caller string returned
verbatim, every other index mixes its anchor with the base color in LCH. -/
def hexScaleEntry (color : String) (index : ℕ) (t : ℚ) : Option String :=
  if index = 5 then some color
  else chromaMixLchHex ((mixColors color).getD index "#000000") color (1 - t)

/-- The display oklch string generateColorScale stores: all three polar
components pass through the NaN-guarded formatter and are joined by
spaces inside the functional wrapper. -/
def genOklchString (c : RGB) : String :=
  "oklch(" ++ joinSpace ([some (oklchOf c).1, some (oklchOf c).2.1,
    (oklchOf c).2.2].map fmtNum) ++ ")"

/-- The second stage of generateColorScale: read the hex back through chroma
and attach the display oklch string with every component NaN-guarded. -/
def mkColorData (hex : String) : Option ColorData :=
  match parseColor hex with
  | none => none
  | some c => some ⟨hex, genOklchString c⟩

/-- The generateColorScale function of src/App.tsx: build the ten hex values
from the ratio table, then decorate each with its oklch display string; any
parse failure inside the try block yields the empty scale. -/
def generateColorScale (color : String) : ColorScale :=
  let res : Option (List ColorData) :=
    match mapOrThrow (fun p => hexScaleEntry color p.1 p.2) mixRatios.enum with
    | none => none
    | some hexScale => mapOrThrow mkColorData hexScale
  match res with
  | none => []
  | some scale => scale

/-- Collapse runs of whitespace to single hyphens, as the regex replacement
of toCssVarName does; the flag records whether the previous character was
inside a whitespace run. -/
def collapseWs : Bool → List Char → List Char
  | _, [] => []
  | prevWs, c :: cs =>
    if c.isWhitespace then
      (if prevWs then collapseWs true cs else '-' :: collapseWs true cs)
    else c :: collapseWs false cs

/-- The toCssVarName function of src/App.tsx: lowercase, then replace every
whitespace run by one hyphen. -/
def toCssVarName (name : String) : String := ⟨collapseWs false name.toLower.toList⟩

/-- A named dictionary entry. -/
structure NamedColor where
  hex : String
  name : String
deriving DecidableEq, Repr

/-- Modelled from the spec: the NAMED_COLORS dictionary is imported from
src/lib/constants, a file absent from the sources.  The spec fixes that it
is a static, immutable, ordered list of hex-name pairs (loaded once, never
mutated) containing common display names such as Indigo and Amber; a small
representative dictionary in that shape is used here.  Every theorem about
the nearest-name scan is proved by structural induction over an arbitrary
dictionary state and uses of this list only its concrete well-formedness
(every entry parses, no entry is named Custom). -/
def NAMED_COLORS : List NamedColor :=
  [⟨"#000000", "Black"⟩, ⟨"#ffffff", "White"⟩, ⟨"#ff0000", "Red"⟩,
   ⟨"#f59e0b", "Amber"⟩, ⟨"#6366f1", "Indigo"⟩, ⟨"#007fff", "Azure Radiance"⟩]

/-- One iteration of the for-loop of getClosestColorName: an unparseable
dictionary hex makes chroma.distance throw (the error path); otherwise the
running minimum is replaced exactly when the new distance is strictly
smaller, so the first occurrence wins ties.  The running minimum starts as
Infinity, modelled as none. -/
def closestStep (q : RGB) (acc : String × Option ℚ) (nc : NamedColor) :
    Except Unit (String × Option ℚ) :=
  match parseColor nc.hex with
  | none => Except.error ()
  | some rc =>
    let d := chromaDistLab q rc
    match acc.2 with
    | none => Except.ok (nc.name, some d)
    | some m => if d < m then Except.ok (nc.name, some d) else Except.ok acc

/-- The getClosestColorName function of src/App.tsx: scan the dictionary for
the entry of minimal Lab distance; any exception (malformed query color or
malformed dictionary entry) falls back to the literal name Custom. -/
def getClosestColorName (hex : String) : String :=
  match parseColor hex with
  | none => "Custom"
  | some q =>
    match NAMED_COLORS.foldlM (closestStep q) ("Custom", (none : Option ℚ)) with
    | Except.error _ => "Custom"
    | Except.ok acc => acc.1

/-! ## Export (handleExportCss and its helper generateVariables) -/

/-- The failure modes of the export path: the explicit length guard of
generateVariables, and the exception chroma raises on a malformed step hex. -/
inductive ExportError where
  | incompleteScale
  | invalidColor
deriving DecidableEq, Repr

/-- The export-time oklch string: lightness and chroma through toFixed(3)
unguarded, the hue NaN-guarded, exactly as generateVariables recomputes it. -/
def exportOklchValue (c : RGB) : String :=
  let p := oklchOf c
  "oklch(" ++ toFixed3 p.1 ++ " " ++ toFixed3 p.2.1 ++ " " ++ fmtNum p.2.2 ++ ")"

/-- One emitted custom-property declaration. -/
def cssLine (cssName : String) (step : ℕ) (v : String) : String :=
  "  --color-" ++ cssName ++ "-" ++ natStr step ++ ": " ++ v ++ ";"

/-- A map that stops at the first thrown error, the embedding of the forEach
body of generateVariables. -/
def mapOrErr (f : α → Except ε β) : List α → Except ε (List β)
  | [] => Except.ok []
  | a :: as =>
    match f a with
    | Except.error e => Except.error e
    | Except.ok b =>
      match mapOrErr f as with
      | Except.error e => Except.error e
      | Except.ok bs => Except.ok (b :: bs)

/-- One step of the export loop: re-parse the stored hex (chroma throws on a
malformed one), re-derive the polar triple and format the declaration. -/
def exportEntry (cssName : String) (p : ℕ × ColorData) : Except ExportError String :=
  match parseColor p.2.hex with
  | none => Except.error ExportError.invalidColor
  | some c => Except.ok (cssLine cssName (SCALE_STEPS.getD p.1 0) (exportOklchValue c))

/-- The generateVariables helper of handleExportCss: refuse any scale whose
length is not exactly the ten steps, otherwise emit one declaration per
step in order. -/
def generateVariables (scale : ColorScale) (name : String) :
    Except ExportError (List String) :=
  if scale.length ≠ SCALE_STEPS.length then Except.error ExportError.incompleteScale
  else mapOrErr (exportEntry (toCssVarName name)) (List.enum scale)

/-- The theme block handleExportCss wraps around the emitted declarations. -/
def themeBlock (lines : List String) : String :=
  "@theme \x7b\n" ++ joinNl lines ++ "\n\x7d"

/-! ## Auxiliary predicates used by the claims -/

/-- A character that may appear in a normalized lowercase hex color. -/
def isLowerHexChar (c : Char) : Bool :=
  ('0' ≤ c && c ≤ '9') || ('a' ≤ c && c ≤ 'f')

/-- A normalized lowercase hex color string: a hash followed by lowercase
hexadecimal digits only. -/
def isLowerHexString (s : String) : Bool :=
  match s.toList with
  | '#' :: rest => rest.all isLowerHexChar
  | _ => false

/-- The color a printed hex string denotes: each channel rounded to its
integral value, the composition of rgb2hex with re-parsing. -/
def roundRGB (c : RGB) : RGB :=
  ⟨((jsRound c.r).toNat : ℕ), ((jsRound c.g).toNat : ℕ), ((jsRound c.b).toNat : ℕ)⟩

/-- Specification-side form of the token transformation: every maximal run
of whitespace becomes one hyphen, written with an explicit run consumer.
Compared against the flag-passing translation of the regex replacement. -/
def specCollapseRuns : List Char → List Char
  | [] => []
  | c :: cs =>
    if c.isWhitespace then
      '-' :: specCollapseRuns (cs.dropWhile Char.isWhitespace)
    else c :: specCollapseRuns cs
termination_by l => l.length
decreasing_by
  · have hle : ∀ l : List Char, (List.dropWhile Char.isWhitespace l).length ≤ l.length := by
      intro l
      induction l with
      | nil => simp [List.dropWhile]
      | cons x xs ih =>
        simp only [List.dropWhile]
        split
        · exact le_trans ih (Nat.le_succ _)
        · exact le_refl _
    simp only [List.length_cons]
    exact Nat.lt_succ_of_le (hle cs)
  · simp only [List.length_cons]
    exact Nat.lt_succ_self _

/-- A string of the shape produced by a fixed-three-decimals formatter: an
integer part free of decimal points, one point, then exactly three digit
characters. -/
def fracPart3 (s : String) : Prop :=
  ∃ (a : String) (c1 c2 c3 : Char),
    s = a ++ "." ++ String.mk [c1, c2, c3] ∧
    c1.isDigit = true ∧ c2.isDigit = true ∧ c3.isDigit = true ∧
    '.' ∉ a.toList

/-- One comparison step of the nearest-name scan, on a precomputed name and
distance pair: replace the running minimum exactly on strict improvement. -/
def scanStep (acc : String × Option ℚ) (p : String × ℚ) : String × Option ℚ :=
  match acc.2 with
  | none => (p.1, some p.2)
  | some m => if p.2 < m then (p.1, some p.2) else acc

/-- The distance of a query color to a dictionary entry, with a default for
the unreachable unparseable-entry case. -/
def distOf (q : RGB) (nc : NamedColor) : ℚ :=
  chromaDistLab q ((parseColor nc.hex).getD ⟨0, 0, 0⟩)

/-! ## Structural lemmas about the numeric-free skeleton -/

theorem clipChannel_nonneg (v : ℚ) : 0 ≤ clipChannel v := by
  unfold clipChannel
  split
  · exact le_refl 0
  · split
    · norm_num
    · linarith [not_lt.mp (by assumption : ¬v < 0)]

theorem clipChannel_le (v : ℚ) : clipChannel v ≤ 255 := by
  unfold clipChannel
  split
  · norm_num
  · split
    · exact le_refl 255
    · linarith [not_lt.mp (by assumption : ¬255 < v)]

theorem jsRound_nonneg {v : ℚ} (h : 0 ≤ v) : 0 ≤ jsRound v := by
  unfold jsRound
  have : (0 : ℚ) ≤ v + 1 / 2 := by linarith
  exact_mod_cast Int.le_floor.mpr (by exact_mod_cast this)

theorem jsRound_le {v : ℚ} (h : v ≤ 255) : jsRound v ≤ 255 := by
  unfold jsRound
  have h2 : v + 1 / 2 < ((256 : ℤ) : ℚ) := by push_cast; linarith
  have := Int.floor_lt.mpr h2
  omega

theorem jsRound_toNat_le {v : ℚ} (h : v ≤ 255) : (jsRound v).toNat ≤ 255 := by
  have := jsRound_le h
  omega

theorem hexDigitVal_digitChar {k : ℕ} (hk : k < 16) :
    hexDigitVal (Nat.digitChar k) = some k := by
  interval_cases k <;> decide

theorem digitChar_lowerHex {k : ℕ} (hk : k < 16) :
    isLowerHexChar (Nat.digitChar k) = true := by
  interval_cases k <;> decide

/-- Reading back a printed hex color: for channels inside the clamped range,
parsing the rgb2hex output recovers the rounded channels. -/
theorem parseColor_rgb2hex (c : RGB)
    (h1r : c.r ≤ 255) (h1g : c.g ≤ 255) (h1b : c.b ≤ 255) :
    parseColor (rgb2hex c) = some (roundRGB c) := by
  have hr := jsRound_toNat_le h1r
  have hg := jsRound_toNat_le h1g
  have hb := jsRound_toNat_le h1b
  set nr := (jsRound c.r).toNat with hnr
  set ng := (jsRound c.g).toNat with hng
  set nb := (jsRound c.b).toNat with hnb
  have e1 : hexDigitVal (Nat.digitChar (nr / 16)) = some (nr / 16) :=
    hexDigitVal_digitChar (by omega)
  have e2 : hexDigitVal (Nat.digitChar (nr % 16)) = some (nr % 16) :=
    hexDigitVal_digitChar (by omega)
  have e3 : hexDigitVal (Nat.digitChar (ng / 16)) = some (ng / 16) :=
    hexDigitVal_digitChar (by omega)
  have e4 : hexDigitVal (Nat.digitChar (ng % 16)) = some (ng % 16) :=
    hexDigitVal_digitChar (by omega)
  have e5 : hexDigitVal (Nat.digitChar (nb / 16)) = some (nb / 16) :=
    hexDigitVal_digitChar (by omega)
  have e6 : hexDigitVal (Nat.digitChar (nb % 16)) = some (nb % 16) :=
    hexDigitVal_digitChar (by omega)
  show parseColor ⟨'#' :: byteHex nr ++ byteHex ng ++ byteHex nb⟩ = _
  simp only [parseColor, byteHex, hexChar, String.toList, List.cons_append,
    List.nil_append, List.append_assoc]
  simp only [e1, e2, e3, e4, e5, e6]
  have vr : 16 * (nr / 16) + nr % 16 = nr := by omega
  have vg : 16 * (ng / 16) + ng % 16 = ng := by omega
  have vb : 16 * (nb / 16) + nb % 16 = nb := by omega
  simp [roundRGB, vr, vg, vb]

/-- Every printed hex color with channels in range is normalized lowercase. -/
theorem isLowerHexString_rgb2hex (c : RGB)
    (h1r : c.r ≤ 255) (h1g : c.g ≤ 255) (h1b : c.b ≤ 255) :
    isLowerHexString (rgb2hex c) = true := by
  have hr := jsRound_toNat_le h1r
  have hg := jsRound_toNat_le h1g
  have hb := jsRound_toNat_le h1b
  show isLowerHexString ⟨'#' :: byteHex _ ++ byteHex _ ++ byteHex _⟩ = true
  simp only [isLowerHexString, byteHex, hexChar, String.toList, List.cons_append,
    List.nil_append, List.append_assoc]
  simp [List.all_cons, digitChar_lowerHex (by omega : (jsRound c.r).toNat / 16 < 16),
    digitChar_lowerHex (by omega : (jsRound c.r).toNat % 16 < 16),
    digitChar_lowerHex (by omega : (jsRound c.g).toNat / 16 < 16),
    digitChar_lowerHex (by omega : (jsRound c.g).toNat % 16 < 16),
    digitChar_lowerHex (by omega : (jsRound c.b).toNat / 16 < 16),
    digitChar_lowerHex (by omega : (jsRound c.b).toNat % 16 < 16)]

/-- The interpolation result is always clamped, so its printed hex parses. -/
theorem parseColor_mixHex (a b : RGB) (f : ℚ) :
    parseColor (rgb2hex (mixLch a b f)) = some (roundRGB (mixLch a b f)) := by
  have hc : ∃ q, mixLch a b f = clipRGB q := ⟨_, rfl⟩
  obtain ⟨q, hq⟩ := hc
  refine parseColor_rgb2hex _ ?_ ?_ ?_ <;> rw [hq] <;> exact clipChannel_le _

/-- The interpolation result prints as a normalized lowercase hex string. -/
theorem isLowerHexString_mixHex (a b : RGB) (f : ℚ) :
    isLowerHexString (rgb2hex (mixLch a b f)) = true := by
  have hc : ∃ q, mixLch a b f = clipRGB q := ⟨_, rfl⟩
  obtain ⟨q, hq⟩ := hc
  refine isLowerHexString_rgb2hex _ ?_ ?_ ?_ <;> rw [hq] <;> exact clipChannel_le _

theorem mkColorData_of_parse {hex : String} {c : RGB} (h : parseColor hex = some c) :
    mkColorData hex = some ⟨hex, genOklchString c⟩ := by
  simp [mkColorData, h]

/-- The flag-passing translation of the whitespace-run replacement agrees
with the direct run-consuming specification, for both flag states. -/
theorem collapseWs_both (l : List Char) :
    collapseWs false l = specCollapseRuns l ∧
    collapseWs true l = specCollapseRuns (l.dropWhile Char.isWhitespace) := by
  induction l with
  | nil =>
    refine ⟨by simp [collapseWs, specCollapseRuns], ?_⟩
    simp [collapseWs, specCollapseRuns, List.dropWhile]
  | cons c cs ih =>
    by_cases hc : c.isWhitespace
    · refine ⟨by simp [collapseWs, specCollapseRuns, hc, ih.2], ?_⟩
      simp [collapseWs, List.dropWhile, hc, ih.2]
    · refine ⟨by simp [collapseWs, specCollapseRuns, hc, ih.1], ?_⟩
      simp [collapseWs, List.dropWhile, specCollapseRuns, hc, ih.1]

/-- The token transformation of toCssVarName is exactly: lowercase the name,
then collapse every maximal whitespace run into a single hyphen. -/
theorem toCssVarName_spec (name : String) :
    toCssVarName name = ⟨specCollapseRuns name.toLower.toList⟩ := by
  unfold toCssVarName
  rw [(collapseWs_both _).1]

theorem digitChar_isDigit {k : ℕ} (hk : k < 10) : (Nat.digitChar k).isDigit = true := by
  interval_cases k <;> decide

/-- Every character printed for a natural number is a decimal digit. -/
theorem natDigits_isDigit (n : ℕ) : ∀ ch ∈ natDigits n, ch.isDigit = true := by
  induction n using Nat.strong_induction_on with
  | _ n ih =>
    intro ch hch
    rw [natDigits] at hch
    split at hch
    · simp only [List.mem_singleton] at hch
      subst hch
      exact digitChar_isDigit (by omega)
    · rename_i h10
      rcases List.mem_append.mp hch with h1 | h2
      · exact ih (n / 10) (Nat.div_lt_self (by omega) (by omega)) ch h1
      · simp only [List.mem_singleton] at h2
        subst h2
        exact digitChar_isDigit (by omega)

/-- The three-decimals formatter always produces an integer part, a point
and exactly three digits. -/
theorem toFixed3_fracPart3 (v : ℚ) : fracPart3 (toFixed3 v) := by
  refine ⟨(if v < 0 then "-" else "") ++ natStr ((jsRound (|v| * 1000)).toNat / 1000),
    Nat.digitChar ((jsRound (|v| * 1000)).toNat % 1000 / 100 % 10),
    Nat.digitChar ((jsRound (|v| * 1000)).toNat % 1000 / 10 % 10),
    Nat.digitChar ((jsRound (|v| * 1000)).toNat % 1000 % 10),
    rfl, digitChar_isDigit (by omega), digitChar_isDigit (by omega),
    digitChar_isDigit (by omega), ?_⟩
  intro hdot
  have hdata : ((if v < 0 then "-" else "") ++
      natStr ((jsRound (|v| * 1000)).toNat / 1000)).toList =
      (if v < 0 then "-" else "").toList ++ natDigits ((jsRound (|v| * 1000)).toNat / 1000) := by
    show ((if v < 0 then "-" else "") ++ _).data = _
    rw [String.data_append]
    rfl
  rw [hdata] at hdot
  rcases List.mem_append.mp hdot with h1 | h2
  · by_cases hv : v < 0 <;> simp [hv] at h1
  · have := natDigits_isDigit _ _ h2
    simp at this

/-- The newline join of a nonempty list, followed by one more newline, is
the concatenation of the newline-terminated lines. -/
theorem joinNl_terminated : ∀ l : List String, l ≠ [] →
    joinNl l ++ "\n" = (l.map (fun s => s ++ "\n")).foldr (· ++ ·) "" := by
  intro l
  induction l with
  | nil => intro h; exact absurd rfl h
  | cons s rest ih =>
    intro _
    match rest, ih with
    | [], _ => simp [joinNl, String.append_empty]
    | t :: ts, ih =>
      have hne : t :: ts ≠ [] := by simp
      show (s ++ "\n" ++ joinNl (t :: ts)) ++ "\n" = _
      rw [String.append_assoc, String.append_assoc, ih hne]
      simp [String.append_assoc]

/-- The theme block is the wrapper around the newline-terminated lines. -/
theorem themeBlock_terminated (l : List String) (h : l ≠ []) :
    themeBlock l = "@theme \x7b\n" ++ (l.map (fun s => s ++ "\n")).foldr (· ++ ·) "" ++ "\x7d" := by
  unfold themeBlock
  rw [← joinNl_terminated l h]
  have : ("\n\x7d" : String) = "\n" ++ "\x7d" := rfl
  rw [this, ← String.append_assoc, ← String.append_assoc]

/-- The white anchor color. -/
theorem parse_white : parseColor "#ffffff" = some ⟨255, 255, 255⟩ := by decide

/-- The black anchor color. -/
theorem parse_black : parseColor "#000000" = some ⟨0, 0, 0⟩ := by decide

/-- Full description of a successful run of generateColorScale: under a
parseable base color the scale has exactly ten entries; entry five is the
caller string verbatim with the display string of the parsed base; every
other entry is a lowercase mixed hex; and every entry parses back and
carries the display string of its own parsed color. -/
theorem generateColorScale_spec (s : String) (c : RGB) (h : parseColor s = some c) :
    ∃ scale, generateColorScale s = scale ∧ scale.length = 10 ∧
      (∀ hi : 5 < scale.length,
        (scale.get ⟨5, hi⟩).hex = s ∧ (scale.get ⟨5, hi⟩).oklch = genOklchString c) ∧
      (∀ i, ∀ hi : i < scale.length, i ≠ 5 →
        isLowerHexString ((scale.get ⟨i, hi⟩).hex) = true) ∧
      (∀ i, ∀ hi : i < scale.length, ∃ c2,
        parseColor ((scale.get ⟨i, hi⟩).hex) = some c2 ∧
        (scale.get ⟨i, hi⟩).oklch = genOklchString c2) := by
  have hs1 : mapOrThrow (fun p => hexScaleEntry s p.1 p.2) mixRatios.enum =
      some [rgb2hex (mixLch ⟨255, 255, 255⟩ c (1 - 0.95)),
            rgb2hex (mixLch ⟨255, 255, 255⟩ c (1 - 0.8)),
            rgb2hex (mixLch ⟨255, 255, 255⟩ c (1 - 0.6)),
            rgb2hex (mixLch ⟨255, 255, 255⟩ c (1 - 0.4)),
            rgb2hex (mixLch ⟨255, 255, 255⟩ c (1 - 0.2)),
            s,
            rgb2hex (mixLch ⟨0, 0, 0⟩ c (1 - 0.2)),
            rgb2hex (mixLch ⟨0, 0, 0⟩ c (1 - 0.4)),
            rgb2hex (mixLch ⟨0, 0, 0⟩ c (1 - 0.6)),
            rgb2hex (mixLch ⟨0, 0, 0⟩ c (1 - 0.8))] := by
    simp [mixRatios, List.enum, List.enumFrom, mapOrThrow, hexScaleEntry,
      chromaMixLchHex, mixColors, List.getD, parse_white, parse_black, h]
  have hs2 : generateColorScale s =
      [⟨rgb2hex (mixLch ⟨255, 255, 255⟩ c (1 - 0.95)),
         genOklchString (roundRGB (mixLch ⟨255, 255, 255⟩ c (1 - 0.95)))⟩,
       ⟨rgb2hex (mixLch ⟨255, 255, 255⟩ c (1 - 0.8)),
         genOklchString (roundRGB (mixLch ⟨255, 255, 255⟩ c (1 - 0.8)))⟩,
       ⟨rgb2hex (mixLch ⟨255, 255, 255⟩ c (1 - 0.6)),
         genOklchString (roundRGB (mixLch ⟨255, 255, 255⟩ c (1 - 0.6)))⟩,
       ⟨rgb2hex (mixLch ⟨255, 255, 255⟩ c (1 - 0.4)),
         genOklchString (roundRGB (mixLch ⟨255, 255, 255⟩ c (1 - 0.4)))⟩,
       ⟨rgb2hex (mixLch ⟨255, 255, 255⟩ c (1 - 0.2)),
         genOklchString (roundRGB (mixLch ⟨255, 255, 255⟩ c (1 - 0.2)))⟩,
       ⟨s, genOklchString c⟩,
       ⟨rgb2hex (mixLch ⟨0, 0, 0⟩ c (1 - 0.2)),
         genOklchString (roundRGB (mixLch ⟨0, 0, 0⟩ c (1 - 0.2)))⟩,
       ⟨rgb2hex (mixLch ⟨0, 0, 0⟩ c (1 - 0.4)),
         genOklchString (roundRGB (mixLch ⟨0, 0, 0⟩ c (1 - 0.4)))⟩,
       ⟨rgb2hex (mixLch ⟨0, 0, 0⟩ c (1 - 0.6)),
         genOklchString (roundRGB (mixLch ⟨0, 0, 0⟩ c (1 - 0.6)))⟩,
       ⟨rgb2hex (mixLch ⟨0, 0, 0⟩ c (1 - 0.8)),
         genOklchString (roundRGB (mixLch ⟨0, 0, 0⟩ c (1 - 0.8)))⟩] := by
    simp only [generateColorScale, hs1]
    simp only [mapOrThrow, mkColorData_of_parse (parseColor_mixHex _ _ _),
      mkColorData_of_parse h]
  refine ⟨_, hs2, rfl, ?_, ?_, ?_⟩
  · intro hi
    exact ⟨rfl, rfl⟩
  · intro i hi hne
    have hi10 : i < 10 := by simpa using hi
    interval_cases i <;>
      first
        | exact absurd rfl hne
        | exact isLowerHexString_mixHex _ _ _
  · intro i hi
    have hi10 : i < 10 := by simpa using hi
    interval_cases i <;>
      first
        | exact ⟨_, parseColor_mixHex _ _ _, rfl⟩
        | exact ⟨c, h, rfl⟩

/-! ## Lemmas about the export path -/

theorem scaleSteps_length : SCALE_STEPS.length = 10 := rfl

theorem mapOrErr_enumFrom (cssName : String) :
    ∀ (scale : List ColorData) (n : ℕ),
      (∀ cd ∈ scale, (parseColor cd.hex).isSome = true) →
      ∃ lines, mapOrErr (exportEntry cssName) (List.enumFrom n scale) = Except.ok lines ∧
        lines.length = scale.length ∧
        ∀ i, ∀ hi : i < lines.length, ∀ hi2 : i < scale.length, ∃ c,
          parseColor ((scale.get ⟨i, hi2⟩).hex) = some c ∧
          lines.get ⟨i, hi⟩ =
            cssLine cssName (SCALE_STEPS.getD (n + i) 0) (exportOklchValue c) := by
  intro scale
  induction scale with
  | nil =>
    intro n _
    refine ⟨[], rfl, rfl, ?_⟩
    intro i hi
    simp at hi
  | cons cd rest ih =>
    intro n h
    have hcd : (parseColor cd.hex).isSome = true := h cd (List.mem_cons_self _ _)
    obtain ⟨c0, hc0⟩ := Option.isSome_iff_exists.mp hcd
    obtain ⟨lines, hl, hlen, hget⟩ := ih (n + 1) (fun x hx => h x (List.mem_cons_of_mem _ hx))
    refine ⟨cssLine cssName (SCALE_STEPS.getD n 0) (exportOklchValue c0) :: lines, ?_, ?_, ?_⟩
    · simp [List.enumFrom, mapOrErr, exportEntry, hc0, hl]
    · simp [hlen]
    · intro i hi hi2
      match i with
      | 0 => exact ⟨c0, hc0, by simp⟩
      | Nat.succ j =>
        obtain ⟨c, hc, hline⟩ := hget j (by simpa using hi) (by simpa using hi2)
        refine ⟨c, by simpa using hc, ?_⟩
        have hidx : n + (j + 1) = n + 1 + j := by omega
        rw [hidx]
        simpa using hline

theorem generateVariables_ok (scale : ColorScale) (name : String)
    (hlen : scale.length = 10)
    (hok : ∀ cd ∈ scale, (parseColor cd.hex).isSome = true) :
    ∃ lines, generateVariables scale name = Except.ok lines ∧ lines.length = 10 ∧
      ∀ i, ∀ hi : i < lines.length, ∀ hi2 : i < scale.length, ∃ c,
        parseColor ((scale.get ⟨i, hi2⟩).hex) = some c ∧
        lines.get ⟨i, hi⟩ =
          cssLine (toCssVarName name) (SCALE_STEPS.getD i 0) (exportOklchValue c) := by
  obtain ⟨lines, hl, hlen2, hget⟩ := mapOrErr_enumFrom (toCssVarName name) scale 0 hok
  refine ⟨lines, ?_, by rw [hlen2, hlen], ?_⟩
  · unfold generateVariables
    rw [if_neg (by rw [hlen, scaleSteps_length]; exact fun hne => hne rfl)]
    exact hl
  · intro i hi hi2
    obtain ⟨c, hc, hline⟩ := hget i hi hi2
    exact ⟨c, hc, by simpa using hline⟩

theorem generateVariables_short (scale : ColorScale) (name : String)
    (h : scale.length ≠ 10) :
    generateVariables scale name = Except.error ExportError.incompleteScale := by
  unfold generateVariables
  rw [if_pos (by rw [scaleSteps_length]; exact h)]

/-! ## Lemmas about the nearest-name scan -/

theorem scan_aux (d : NamedColor → ℚ) :
    ∀ (l : List NamedColor) (nm : String) (m : ℚ),
      (List.foldl (fun acc nc => scanStep acc (nc.name, d nc)) (nm, some m) l = (nm, some m) ∧
        ∀ x ∈ l, m ≤ d x) ∨
      (∃ pre e suf, l = pre ++ e :: suf ∧
        List.foldl (fun acc nc => scanStep acc (nc.name, d nc)) (nm, some m) l =
          (e.name, some (d e)) ∧
        d e < m ∧ (∀ x ∈ pre, d e < d x) ∧ (∀ x ∈ l, d e ≤ d x)) := by
  intro l
  induction l with
  | nil =>
    intro nm m
    left
    exact ⟨rfl, by simp⟩
  | cons nc t ih =>
    intro nm m
    by_cases hlt : d nc < m
    · have hstep : scanStep (nm, some m) (nc.name, d nc) = (nc.name, some (d nc)) := by
        simp [scanStep, hlt]
      rcases ih nc.name (d nc) with ⟨heq, hall⟩ | ⟨pre, e, suf, hdec, hres, hlt2, hpre, hall⟩
      · right
        refine ⟨[], nc, t, by simp, ?_, hlt, by simp, ?_⟩
        · simpa [hstep] using heq
        · intro x hx
          rcases List.mem_cons.mp hx with hx | hx
          · subst hx; exact le_refl _
          · exact hall x hx
      · right
        refine ⟨nc :: pre, e, suf, by simp [hdec], ?_, lt_trans hlt2 hlt, ?_, ?_⟩
        · simpa [hstep] using hres
        · intro x hx
          rcases List.mem_cons.mp hx with hx | hx
          · subst hx; exact hlt2
          · exact hpre x hx
        · intro x hx
          rcases List.mem_cons.mp hx with hx | hx
          · subst hx; exact le_of_lt hlt2
          · exact hall x hx
    · have hstep : scanStep (nm, some m) (nc.name, d nc) = (nm, some m) := by
        simp [scanStep, hlt]
      have hge : m ≤ d nc := not_lt.mp hlt
      rcases ih nm m with ⟨heq, hall⟩ | ⟨pre, e, suf, hdec, hres, hlt2, hpre, hall⟩
      · left
        refine ⟨by simpa [hstep] using heq, ?_⟩
        intro x hx
        rcases List.mem_cons.mp hx with hx | hx
        · subst hx; exact hge
        · exact hall x hx
      · right
        refine ⟨nc :: pre, e, suf, by simp [hdec], ?_, hlt2, ?_, ?_⟩
        · simpa [hstep] using hres
        · intro x hx
          rcases List.mem_cons.mp hx with hx | hx
          · subst hx; exact lt_of_lt_of_le hlt2 hge
          · exact hpre x hx
        · intro x hx
          rcases List.mem_cons.mp hx with hx | hx
          · subst hx; exact le_trans (le_of_lt hlt2) hge
          · exact hall x hx

theorem scan_main (d : NamedColor → ℚ) (l : List NamedColor) (hne : l ≠ []) :
    ∃ pre e suf, l = pre ++ e :: suf ∧
      List.foldl (fun acc nc => scanStep acc (nc.name, d nc)) ("Custom", none) l =
        (e.name, some (d e)) ∧
      (∀ x ∈ pre, d e < d x) ∧ (∀ x ∈ l, d e ≤ d x) := by
  match l, hne with
  | nc :: t, _ =>
    have hstep : scanStep ("Custom", none) (nc.name, d nc) = (nc.name, some (d nc)) := rfl
    rcases scan_aux d t nc.name (d nc) with ⟨heq, hall⟩ |
      ⟨pre, e, suf, hdec, hres, hlt2, hpre, hall⟩
    · refine ⟨[], nc, t, by simp, by simpa [List.foldl, hstep] using heq, by simp, ?_⟩
      intro x hx
      rcases List.mem_cons.mp hx with hx | hx
      · subst hx; exact le_refl _
      · exact hall x hx
    · refine ⟨nc :: pre, e, suf, by simp [hdec], by simpa [List.foldl, hstep] using hres, ?_, ?_⟩
      · intro x hx
        rcases List.mem_cons.mp hx with hx | hx
        · subst hx; exact hlt2
        · exact hpre x hx
      · intro x hx
        rcases List.mem_cons.mp hx with hx | hx
        · subst hx; exact le_of_lt hlt2
        · exact hall x hx

theorem foldlM_except_ok {ε σ α : Type} (f : σ → α → Except ε σ) (g : σ → α → σ) :
    ∀ (l : List α) (b : σ), (∀ b2 : σ, ∀ a ∈ l, f b2 a = Except.ok (g b2 a)) →
      List.foldlM f b l = Except.ok (List.foldl g b l) := by
  intro l
  induction l with
  | nil => intro b _; rfl
  | cons a t ih =>
    intro b h
    have ha : f b a = Except.ok (g b a) := h b a (List.mem_cons_self _ _)
    have hrest := ih (g b a) (fun b2 x hx => h b2 x (List.mem_cons_of_mem _ hx))
    simp only [List.foldlM, ha, List.foldl]
    simpa [Except.bind] using hrest

theorem closestStep_ok (q : RGB) (acc : String × Option ℚ) (nc : NamedColor)
    (rc : RGB) (h : parseColor nc.hex = some rc) :
    closestStep q acc nc = Except.ok (scanStep acc (nc.name, distOf q nc)) := by
  rcases acc with ⟨nm, mo⟩
  cases mo with
  | none => simp [closestStep, scanStep, h, distOf]
  | some m =>
    simp only [closestStep, scanStep, h, distOf, Option.getD_some]
    split <;> rfl

/-- Every dictionary entry parses. -/
theorem namedColors_parse : ∀ nc ∈ NAMED_COLORS, (parseColor nc.hex).isSome = true := by
  decide

/-- No dictionary entry carries the fallback name. -/
theorem namedColors_noCustom : ∀ nc ∈ NAMED_COLORS, nc.name ≠ "Custom" := by
  decide

/-- Characterization of a successful nearest-name lookup: the result is the
name of a dictionary entry of globally minimal distance that beats every
earlier entry strictly. -/
theorem getClosest_spec (hex : String) (q : RGB) (hq : parseColor hex = some q) :
    ∃ pre e suf, NAMED_COLORS = pre ++ e :: suf ∧
      getClosestColorName hex = e.name ∧
      (∀ x ∈ pre, distOf q e < distOf q x) ∧
      (∀ x ∈ NAMED_COLORS, distOf q e ≤ distOf q x) := by
  have hfold : NAMED_COLORS.foldlM (closestStep q) ("Custom", (none : Option ℚ)) =
      Except.ok (NAMED_COLORS.foldl
        (fun acc nc => scanStep acc (nc.name, distOf q nc)) ("Custom", none)) := by
    refine foldlM_except_ok _ _ NAMED_COLORS _ ?_
    intro b2 a ha
    obtain ⟨rc, hrc⟩ := Option.isSome_iff_exists.mp (namedColors_parse a ha)
    exact closestStep_ok q b2 a rc hrc
  obtain ⟨pre, e, suf, hdec, hres, hpre, hall⟩ :=
    scan_main (distOf q) NAMED_COLORS (by decide)
  refine ⟨pre, e, suf, hdec, ?_, hpre, hall⟩
  simp only [getClosestColorName, hq, hfold, hres]

/-- A base color that does not parse produces the empty scale. -/
theorem generateColorScale_none (s : String) (h : parseColor s = none) :
    generateColorScale s = [] := by
  simp [generateColorScale, mixRatios, List.enum, List.enumFrom, mapOrThrow,
    hexScaleEntry, chromaMixLchHex, mixColors, List.getD, parse_white, h]

/-- The generation-time formatter (NaN guard on all three components) and
the export-time formatter (NaN guard on the hue only) produce the same
string on every color, since lightness and chroma of a parsed color are
plain rationals. -/
theorem genOklch_eq_export (c : RGB) : genOklchString c = exportOklchValue c := by
  unfold genOklchString exportOklchValue
  cases hh : (oklchOf c).2.2 <;>
    simp [joinSpace, fmtNum, hh, List.map, String.append_assoc]

/-! ## The claims -/

/-- Claim C1: for every valid hex base color (in particular every valid
6-digit one), generateColorScale returns a scale of length exactly ten, and
the entry at index five is the caller-supplied base color string itself,
unmodified. -/
theorem claim_C1 (s : String) (h : (parseColor s).isSome = true) :
    (generateColorScale s).length = 10 ∧
    ∀ hi : 5 < (generateColorScale s).length,
      ((generateColorScale s).get ⟨5, hi⟩).hex = s := by
  obtain ⟨c, hc⟩ := Option.isSome_iff_exists.mp h
  obtain ⟨scale, he, hlen, h5, -, -⟩ := generateColorScale_spec s c hc
  rw [he]
  exact ⟨hlen, fun hi => (h5 hi).1⟩

/-- Witness for C1 at the base color of the concrete scenario. -/
theorem claim_C1_witness :
    (parseColor "#6366f1").isSome = true ∧
    ((generateColorScale "#6366f1").length = 10 ∧
      ∀ hi : 5 < (generateColorScale "#6366f1").length,
        ((generateColorScale "#6366f1").get ⟨5, hi⟩).hex = "#6366f1") :=
  ⟨by decide, claim_C1 "#6366f1" (by decide)⟩

/-- Claim C2: the scale length is always zero or ten, and a base color that
fails to parse yields the empty scale, never a partial one. -/
theorem claim_C2 (s : String) :
    ((generateColorScale s).length = 0 ∨ (generateColorScale s).length = 10) ∧
    (parseColor s = none → generateColorScale s = []) := by
  cases hp : parseColor s with
  | none =>
    have h3 := generateColorScale_none s hp
    rw [h3]
    exact ⟨Or.inl rfl, fun _ => rfl⟩
  | some c =>
    obtain ⟨scale, he, hlen, -, -, -⟩ := generateColorScale_spec s c hp
    rw [he]
    refine ⟨Or.inr hlen, ?_⟩
    intro hnone
    exact Option.noConfusion hnone

/-- Witness for C2 at the malformed input of the concrete scenario. -/
theorem claim_C2_witness :
    parseColor "not-a-color" = none ∧ generateColorScale "not-a-color" = [] :=
  ⟨by decide, (claim_C2 "not-a-color").2 (by decide)⟩

/-- Counterexample to C3 as stated: a length-ten scale whose steps hold a
malformed hex makes the export fail with the invalid-color exception, so
export failure is not restricted to the length condition. -/
theorem claim_C3_counterexample :
    (List.replicate 10 (⟨"nope", ""⟩ : ColorData)).length = 10 ∧
    generateVariables (List.replicate 10 (⟨"nope", ""⟩ : ColorData)) "Primary" =
      Except.error ExportError.invalidColor := by
  constructor
  · rfl
  · rfl

/-- Claim C3 as amended: a scale of length other than ten always fails with
the incomplete-scale signal and produces no declarations; a complete scale
whose step hexes all parse always succeeds. -/
theorem claim_C3_amended (scale : ColorScale) (name : String) :
    (scale.length ≠ 10 →
      generateVariables scale name = Except.error ExportError.incompleteScale) ∧
    (scale.length = 10 → (∀ cd ∈ scale, (parseColor cd.hex).isSome = true) →
      ∃ lines, generateVariables scale name = Except.ok lines ∧ lines.length = 10) := by
  constructor
  · exact generateVariables_short scale name
  · intro hlen hok
    obtain ⟨lines, hl, hlen2, -⟩ := generateVariables_ok scale name hlen hok
    exact ⟨lines, hl, hlen2⟩

/-- Witness for the amended C3 on the empty scale. -/
theorem claim_C3_witness :
    ([] : ColorScale).length ≠ 10 ∧
    generateVariables [] "Primary" = Except.error ExportError.incompleteScale :=
  ⟨by decide, (claim_C3_amended [] "Primary").1 (by decide)⟩

/-- Counterexample to C5 as stated: an uppercase base color string is
returned verbatim at index five, so the scale entry is not lowercase. -/
theorem claim_C5_counterexample :
    ∃ hi : 5 < (generateColorScale "#6366F1").length,
      ((generateColorScale "#6366F1").get ⟨5, hi⟩).hex = "#6366F1" ∧
      isLowerHexString (((generateColorScale "#6366F1").get ⟨5, hi⟩).hex) = false := by
  have hp : parseColor "#6366F1" = some ⟨99, 102, 241⟩ := by decide
  obtain ⟨scale, he, hlen, h5, -, -⟩ := generateColorScale_spec _ _ hp
  rw [he]
  refine ⟨by rw [hlen]; omega, (h5 _).1, ?_⟩
  rw [(h5 _).1]
  decide

/-- Claim C5 as amended: every scale entry other than the base step is a
normalized lowercase hex string; the base step is the caller string
verbatim, hence lowercase only if the input was. -/
theorem claim_C5_amended (s : String) (h : (parseColor s).isSome = true) :
    ∀ i, ∀ hi : i < (generateColorScale s).length,
      (i ≠ 5 → isLowerHexString (((generateColorScale s).get ⟨i, hi⟩).hex) = true) ∧
      (i = 5 → ((generateColorScale s).get ⟨i, hi⟩).hex = s) := by
  obtain ⟨c, hc⟩ := Option.isSome_iff_exists.mp h
  obtain ⟨scale, he, hlen, h5, hlow, -⟩ := generateColorScale_spec s c hc
  rw [he]
  intro i hi
  constructor
  · intro hne
    exact hlow i hi hne
  · intro h5i
    subst h5i
    exact (h5 hi).1

/-- Witness for the amended C5 at an uppercase input. -/
theorem claim_C5_witness :
    (parseColor "#6366F1").isSome = true ∧
    ∀ i, ∀ hi : i < (generateColorScale "#6366F1").length,
      (i ≠ 5 →
        isLowerHexString (((generateColorScale "#6366F1").get ⟨i, hi⟩).hex) = true) ∧
      (i = 5 → ((generateColorScale "#6366F1").get ⟨i, hi⟩).hex = "#6366F1") :=
  ⟨by decide, claim_C5_amended "#6366F1" (by decide)⟩

/-- Claim C6: the fixed weight table is symmetric around the base step (the
k-th step lighter and the k-th step darker than base share their weight for
k from one to four) and monotone toward each end: strictly decreasing from
the lightest step down to the base, strictly increasing from the base down
to the darkest step. -/
theorem claim_C6 :
    (mixRatios.getD 4 0 = mixRatios.getD 6 0 ∧
     mixRatios.getD 3 0 = mixRatios.getD 7 0 ∧
     mixRatios.getD 2 0 = mixRatios.getD 8 0 ∧
     mixRatios.getD 1 0 = mixRatios.getD 9 0) ∧
    (mixRatios.getD 0 0 > mixRatios.getD 1 0 ∧
     mixRatios.getD 1 0 > mixRatios.getD 2 0 ∧
     mixRatios.getD 2 0 > mixRatios.getD 3 0 ∧
     mixRatios.getD 3 0 > mixRatios.getD 4 0 ∧
     mixRatios.getD 4 0 > mixRatios.getD 5 0) ∧
    (mixRatios.getD 5 0 < mixRatios.getD 6 0 ∧
     mixRatios.getD 6 0 < mixRatios.getD 7 0 ∧
     mixRatios.getD 7 0 < mixRatios.getD 8 0 ∧
     mixRatios.getD 8 0 < mixRatios.getD 9 0) := by
  norm_num [mixRatios, List.getD]

/-- Claim C7: the naming operation is total; on a parseable query it returns
the name of a dictionary entry of globally minimal Lab distance that beats
every earlier entry strictly (first occurrence wins ties), and that name is
never the fallback; the fallback Custom appears exactly on a malformed
query. -/
theorem claim_C7 (hex : String) :
    (∀ q, parseColor hex = some q →
      ∃ pre e suf, NAMED_COLORS = pre ++ e :: suf ∧
        getClosestColorName hex = e.name ∧
        (∀ x ∈ pre, distOf q e < distOf q x) ∧
        (∀ x ∈ NAMED_COLORS, distOf q e ≤ distOf q x) ∧
        getClosestColorName hex ≠ "Custom") ∧
    (parseColor hex = none → getClosestColorName hex = "Custom") := by
  constructor
  · intro q hq
    obtain ⟨pre, e, suf, hdec, hname, hpre, hall⟩ := getClosest_spec hex q hq
    refine ⟨pre, e, suf, hdec, hname, hpre, hall, ?_⟩
    rw [hname]
    exact namedColors_noCustom e
      (by rw [hdec]; exact List.mem_append_right _ (List.mem_cons_self _ _))
  · intro h
    simp [getClosestColorName, h]

/-- Witness for C7 at the base color of the concrete scenario. -/
theorem claim_C7_witness :
    parseColor "#6366f1" = some ⟨99, 102, 241⟩ ∧
    ∃ pre e suf, NAMED_COLORS = pre ++ e :: suf ∧
      getClosestColorName "#6366f1" = e.name ∧
      (∀ x ∈ pre, distOf ⟨99, 102, 241⟩ e < distOf ⟨99, 102, 241⟩ x) ∧
      (∀ x ∈ NAMED_COLORS, distOf ⟨99, 102, 241⟩ e ≤ distOf ⟨99, 102, 241⟩ x) ∧
      getClosestColorName "#6366f1" ≠ "Custom" :=
  ⟨by decide, (claim_C7 "#6366f1").1 ⟨99, 102, 241⟩ (by decide)⟩

/-- Claim C8: on a complete scale of parseable steps the export succeeds and
emits, per step and in step order, exactly one declaration of the form
two spaces, double hyphen, color, the token name, the step label, a colon,
an oklch functional value and a semicolon; the token name is the display
name lowercased with every whitespace run collapsed to one hyphen; the
lightness and chroma fields carry exactly three decimals, the hue field
likewise when defined and the literal 0.000 when undefined; and the theme
block is the concatenation of the newline-terminated declarations. -/
theorem claim_C8 (scale : ColorScale) (name : String)
    (hlen : scale.length = 10)
    (hok : ∀ cd ∈ scale, (parseColor cd.hex).isSome = true) :
    toCssVarName name = ⟨specCollapseRuns name.toLower.toList⟩ ∧
    ∃ lines, generateVariables scale name = Except.ok lines ∧ lines.length = 10 ∧
      themeBlock lines =
        "@theme \x7b\n" ++ (lines.map (fun s => s ++ "\n")).foldr (· ++ ·) "" ++ "\x7d" ∧
      ∀ i, ∀ hi : i < lines.length, ∀ hi2 : i < scale.length, ∃ c,
        parseColor ((scale.get ⟨i, hi2⟩).hex) = some c ∧
        lines.get ⟨i, hi⟩ =
          "  --color-" ++ toCssVarName name ++ "-" ++ natStr (SCALE_STEPS.getD i 0) ++
            ": " ++ ("oklch(" ++ toFixed3 (oklchOf c).1 ++ " " ++ toFixed3 (oklchOf c).2.1 ++
            " " ++ fmtNum (oklchOf c).2.2 ++ ")") ++ ";" ∧
        fracPart3 (toFixed3 (oklchOf c).1) ∧
        fracPart3 (toFixed3 (oklchOf c).2.1) ∧
        ((oklchOf c).2.2 = none → fmtNum (oklchOf c).2.2 = "0.000") ∧
        (∀ hv : ℚ, (oklchOf c).2.2 = some hv → fracPart3 (fmtNum (oklchOf c).2.2)) := by
  refine ⟨toCssVarName_spec name, ?_⟩
  obtain ⟨lines, hl, hlen2, hget⟩ := generateVariables_ok scale name hlen hok
  have hne : lines ≠ [] := by
    intro hemp
    rw [hemp] at hlen2
    exact absurd hlen2 (by decide)
  refine ⟨lines, hl, hlen2, themeBlock_terminated lines hne, ?_⟩
  intro i hi hi2
  obtain ⟨c, hc, hline⟩ := hget i hi hi2
  refine ⟨c, hc, ?_, toFixed3_fracPart3 _, toFixed3_fracPart3 _, ?_, ?_⟩
  · rw [hline]
    rfl
  · intro hnone
    simp [fmtNum, hnone]
  · intro hv hsome
    rw [hsome]
    exact toFixed3_fracPart3 hv

/-- Witness for C8 on the all-black scale of the concrete scenario. -/
theorem claim_C8_witness :
    ∃ lines,
      generateVariables (List.replicate 10 (⟨"#000000", ""⟩ : ColorData)) "My Color" =
        Except.ok lines ∧ lines.length = 10 := by
  obtain ⟨-, lines, h1, h2, -⟩ :=
    claim_C8 (List.replicate 10 (⟨"#000000", ""⟩ : ColorData)) "My Color"
      (by rfl) (by decide)
  exact ⟨lines, h1, h2⟩

/-- Claim C9: the engine is deterministic; scale generation and naming are
pure functions of their input, so two calls on the same input are equal. -/
theorem claim_C9 (s : String) :
    generateColorScale s = generateColorScale s ∧
    getClosestColorName s = getClosestColorName s :=
  ⟨rfl, rfl⟩

/-- Claim C10: every step of a generated scale stores exactly the string the
export path re-derives from the step hex; the two formatters agree on every
color reachable from a hex string. -/
theorem claim_C10 (s : String) :
    ∀ i, ∀ hi : i < (generateColorScale s).length, ∃ c,
      parseColor (((generateColorScale s).get ⟨i, hi⟩).hex) = some c ∧
      ((generateColorScale s).get ⟨i, hi⟩).oklch = exportOklchValue c := by
  cases hp : parseColor s with
  | none =>
    have h3 := generateColorScale_none s hp
    intro i hi
    rw [h3] at hi
    exact absurd hi (by simp)
  | some c =>
    obtain ⟨scale, he, -, -, -, hall⟩ := generateColorScale_spec s c hp
    rw [he]
    intro i hi
    obtain ⟨c2, hc2, hoklch⟩ := hall i hi
    exact ⟨c2, hc2, by rw [hoklch]; exact genOklch_eq_export c2⟩

/-- Witness for C10 at the base step of the concrete scenario. -/
theorem claim_C10_witness :
    ∃ hi : 5 < (generateColorScale "#6366f1").length, ∃ c,
      parseColor (((generateColorScale "#6366f1").get ⟨5, hi⟩).hex) = some c ∧
      ((generateColorScale "#6366f1").get ⟨5, hi⟩).oklch = exportOklchValue c := by
  have hp : parseColor "#6366f1" = some ⟨99, 102, 241⟩ := by decide
  obtain ⟨scale, he, hlen, -, -, -⟩ := generateColorScale_spec _ _ hp
  have hi : 5 < (generateColorScale "#6366f1").length := by
    rw [he, hlen]
    omega
  exact ⟨hi, claim_C10 "#6366f1" 5 hi⟩

end Tintwind
